import Mathlib

/-!
Shallow embedding of the ASCII-art conversion pipeline of `src/main.py`
(functions `get_font_bitmaps` and `draw_ascii`), together with proofs of the
specified properties.  Images are modelled as dimensions plus a total pixel
function; numpy unsigned arithmetic is modelled with explicit `% 2 ^ w`
reductions at the operations where the array dtype applies.
-/

/-- An RGB raster (numpy array of shape `h × w × 3`): dimensions plus a
total pixel function.  Pixel values outside the `h × w` domain are
irrelevant. -/
structure Mat3 where
  h : Nat
  w : Nat
  pix : Nat → Nat → Fin 3 → Nat

/-- A compositing buffer: an RGB raster together with the modulus of its
unsigned integer dtype (`2 ^ 8` for uint8, `2 ^ 16` for uint16,
`2 ^ 32` for uint32). -/
structure Buf where
  h : Nat
  w : Nat
  modulus : Nat
  pix : Nat → Nat → Fin 3 → Nat

/-- Uint8 inversion `255 - v` as numpy computes it on a uint8 array
(wraps modulo 256; equals `255 - v` whenever `v ≤ 255`). -/
def inv8 (v : Nat) : Nat := (255 + 256 - v % 256) % 256

/-- Uint16 inversion `255 - v` as numpy computes it on a uint16 array
(the `monochrome` array of `ASCIICamera` has dtype uint16); equals
`255 - v` whenever `v ≤ 255`. -/
def inv16 (v : Nat) : Nat := (255 + 65536 - v % 65536) % 65536

/-- Weighted luminosity `R*3 + G*4 + B*1` (line 146 of `src/main.py`). -/
def luminance (r g b : Nat) : Nat := 3 * r + 4 * g + 1 * b

/-- Index scaling of `draw_ascii` (lines 150-151): multiply the luminosity
by `len(chars)` and shift right by 11. -/
def glyphIndex (lum n : Nat) : Nat := (lum * n) >>> 11

/-- Number of samples `a[::k]` takes from an axis of length `n` (for
`k > 0` this is `⌈n / k⌉`). -/
def strideLen (n k : Nat) : Nat := (n + k - 1) / k

/-- The downsampled frame `frame[::fh, ::fw]` (line 116): one sample per
glyph cell, taken with fixed stride. -/
def sampled (frame : Mat3) (fh fw : Nat) : Nat → Nat → Fin 3 → Nat :=
  fun i j c => frame.pix (i * fh) (j * fw) c

/-- The binding of `frame_small` seen after line 135: in color mode with a
white background the downsampled frame is inverted in uint8 before it is
used both as per-cell tint and as the luminosity source. -/
def frameSmallColor (frame : Mat3) (fh fw background : Nat) : Nat → Nat → Fin 3 → Nat :=
  if background = 255 then fun i j c => inv8 (sampled frame fh fw i j c)
  else sampled frame fh fw

/-- Glyph index of cell `(i, j)` (lines 144-151).  With a monochrome color
the luminosity is read from the raw downsampled frame; without one it is
read from the current binding of `frame_small`, which line 135 has
replaced by the inverted copy when `background = 255`. -/
def cellIndex (frame : Mat3) (fh fw background : Nat) (monochrome : Option (Fin 3 → Nat))
    (n : Nat) : Nat → Nat → Nat :=
  fun i j =>
    let src := if monochrome.isSome then sampled frame fh fw
               else frameSmallColor frame fh fw background
    glyphIndex (luminance (src i j 0) (src i j 1) (src i j 2)) n

/-- Contents of `buffer_view` after step 2a/2b of `draw_ascii`
(lines 126-142): either the (possibly inverted) monochrome color
broadcast everywhere, or the (possibly inverted) sampled frame color
expanded to glyph-cell blocks.  Values are stored in the buffer dtype,
hence reduced modulo `M`. -/
def tintF (frame : Mat3) (fh fw background : Nat) (monochrome : Option (Fin 3 → Nat))
    (M : Nat) : Nat → Nat → Fin 3 → Nat :=
  match monochrome with
  | some mono =>
    fun _ _ c => 1 * (if background = 255 then inv16 (mono c) else mono c) % M
  | none => fun y x c => frameSmallColor frame fh fw background (y / fh) (x / fw) c % M

/-- The gathered glyph canvas `font_bitmaps[gray_index]` after the
transpose/reshape of line 157: pixel `(y, x)` comes from the glyph chosen
for cell `(y / fh, x / fw)`, at offset `(y % fh, x % fw)`. -/
def asciiF (font_bitmaps : List Mat3) (fb0 : Mat3) (idx : Nat → Nat → Nat)
    (fh fw : Nat) : Nat → Nat → Fin 3 → Nat :=
  fun y x c => (font_bitmaps.getD (idx (y / fh) (x / fw)) fb0).pix (y % fh) (x % fw) c

/-- Steps 6 of `draw_ascii` (lines 165-173) for one pixel: multiply glyph
pixel and tint in the buffer dtype (`% M`), floor-divide by 255, convert
to uint8 (`% 256`), and invert once at the end when the background is
white. -/
def blendPix (a t M background : Nat) : Nat :=
  let v := a * t % M / 255 % 256
  if background = 255 then 255 - v else v

/-- Numpy broadcasting of two axis lengths: equal lengths broadcast to
themselves, a length-1 axis stretches to the other length, anything else
fails. -/
def bcast (a b : Nat) : Option Nat :=
  if a = b then some a else if a = 1 then some b else if b = 1 then some a else none

/-- Index into an axis of a broadcast operand: a length-1 axis is read at
0, any other axis at the output coordinate. -/
def bIdx (dim y : Nat) : Nat := if dim = 1 then 0 else y

/-- Shallow embedding of `draw_ascii` (lines 98-175 of `src/main.py`).

An empty atlas returns the frame unchanged (lines 107-109).  Otherwise the
frame is downsampled with stride `(fh, fw)` taken from the first glyph, a
fresh uint16/uint32 buffer is allocated only when `buffer is None`
(lines 120-122), the tint is written into `buffer_view = buffer[:h*fh, :w*fw]`,
the glyph canvas is gathered, both are cropped to the original size when
`clip` is set, and the final blend `np.multiply(ascii_image, buffer_view,
out=buffer)` runs under numpy shape rules: the two operands must broadcast
together and the result shape must equal the shape of the `out` buffer,
otherwise numpy raises.  A zero glyph dimension makes the stride slicing
raise, a ragged atlas could not have been packed into the 4-D
`font_bitmaps` array, and a gathered index beyond the atlas length makes
the fancy indexing of line 157 raise. -/
def draw_ascii (frame : Mat3) (chars : List Char) (background : Nat) (clip : Bool)
    (monochrome : Option (Fin 3 → Nat)) (font_bitmaps : List Mat3)
    (buffer : Option Buf) : Except String Mat3 :=
  match font_bitmaps with
  | [] => Except.ok frame
  | fb0 :: rest =>
    let fh := fb0.h
    let fw := fb0.w
    if fh = 0 ∨ fw = 0 then Except.error "slice step cannot be zero"
    else if ∀ g ∈ fb0 :: rest, g.h = fh ∧ g.w = fw then
      let oh := frame.h
      let ow := frame.w
      let h := strideLen oh fh
      let w := strideLen ow fw
      let buf : Buf :=
        match buffer with
        | none =>
          ⟨h * fh, w * fw, if chars.length < 32 then 2 ^ 16 else 2 ^ 32, fun _ _ _ => 0⟩
        | some b => b
      let M := buf.modulus
      let idx := cellIndex frame fh fw background monochrome chars.length
      if ∀ i < h, ∀ j < w, idx i j < rest.length + 1 then
        let tint := tintF frame fh fw background monochrome M
        let ascii := asciiF (fb0 :: rest) fb0 idx fh fw
        let bvh := min buf.h (h * fh)
        let bvw := min buf.w (w * fw)
        let aih := if clip then min (h * fh) oh else h * fh
        let aiw := if clip then min (w * fw) ow else w * fw
        let bvh2 := if clip then min bvh oh else bvh
        let bvw2 := if clip then min bvw ow else bvw
        let obh := if clip then min buf.h oh else buf.h
        let obw := if clip then min buf.w ow else buf.w
        match bcast aih bvh2, bcast aiw bvw2 with
        | some rh, some rw =>
          if rh = obh ∧ rw = obw then
            Except.ok ⟨obh, obw, fun y x c =>
              blendPix (ascii (bIdx aih y) (bIdx aiw x) c)
                (tint (bIdx bvh2 y) (bIdx bvw2 x) c) M background⟩
          else Except.error "non-broadcastable output operand"
        | _, _ => Except.error "operands could not be broadcast together"
      else Except.error "index out of bounds for axis 0"
    else Except.error "could not pack inhomogeneous glyph shapes"

/-- First-occurrence duplicate collapse, as the Python dict `bitmaps`
performs it in lines 56-62: a character already seen is skipped. -/
def dedupFirstAux (seen : List Char) : List Char → List Char
  | [] => []
  | c :: cs => if c ∈ seen then dedupFirstAux seen cs else c :: dedupFirstAux (c :: seen) cs

/-- Distinct characters of the character set, in first-occurrence order
(the iteration order of the Python dict `bitmaps`). -/
def dedupFirst (l : List Char) : List Char := dedupFirstAux [] l

/-- Minimum measured glyph width across the (distinct) character set
(lines 55-62); 0 when the set is empty. -/
def minWidth (chars : List Char) (font : Char → Mat3) : Nat :=
  match (dedupFirst chars).map (fun c => (font c).w) with
  | [] => 0
  | a :: l => l.foldl min a

/-- Minimum measured glyph height across the (distinct) character set
(lines 55-62); 0 when the set is empty. -/
def minHeight (chars : List Char) (font : Char → Mat3) : Nat :=
  match (dedupFirst chars).map (fun c => (font c).h) with
  | [] => 0
  | a :: l => l.foldl min a

/-- Rendering of one character (lines 66-85): the font renders the
character at its measured size, the bitmap is inverted in uint8 when the
background is white, and the result is cropped to
`bitmap[:min_height, :min_width]`. -/
def renderGlyph (background : Nat) (font : Char → Mat3) (mh mw : Nat) (c : Char) : Mat3 :=
  let bm := font c
  let bm2 : Mat3 :=
    if background = 255 then ⟨bm.h, bm.w, fun y x ch => inv8 (bm.pix y x ch)⟩ else bm
  ⟨min bm2.h mh, min bm2.w mw, bm2.pix⟩

/-- Pixel density of a glyph: `bitmap.sum()` over the cropped mask
(line 90). -/
def Mat3.density (m : Mat3) : Nat :=
  ∑ y ∈ Finset.range m.h, ∑ x ∈ Finset.range m.w, ∑ c : Fin 3, m.pix y x c

/-- Shallow embedding of `get_font_bitmaps` (lines 40-95 of
`src/main.py`).  The Pillow font is abstracted as a function giving the
measured-and-rendered bitmap of each character.  Duplicate characters are
collapsed by the dict, every rendered glyph is cropped to the shared
minimum size, and the characters are sorted by density with
`sorted(keys, key=density, reverse=not reverse)` — a stable sort that is
descending when the `reverse` argument is unset and ascending when it is
set (modelled by a stable insertion sort, which agrees with any stable
sort for a total key order). -/
def get_font_bitmaps (reverse : Bool) (background : Nat) (chars : List Char)
    (font : Char → Mat3) : List Mat3 :=
  let distinct := dedupFirst chars
  let mh := minHeight chars font
  let mw := minWidth chars font
  let rendered : Char → Mat3 := renderGlyph background font mh mw
  let sorted_chars :=
    if reverse then distinct.insertionSort fun a b => (rendered a).density ≤ (rendered b).density
    else distinct.insertionSort fun a b => (rendered b).density ≤ (rendered a).density
  sorted_chars.map rendered

/-! ### Concrete instances used in witness and counterexample theorems -/

/-- The fixed override color (0, 255, 0) of the C7 scenario. -/
def monoGreen : Fin 3 → Nat := fun c => if c = 1 then 255 else 0

def frameC1 : Mat3 := ⟨2, 2, fun _ _ _ => 0⟩
def glyphC1 : Mat3 := ⟨1, 1, fun _ _ _ => 0⟩
def bufC1 : Buf := ⟨1, 2, 65536, fun _ _ _ => 0⟩
def fontC2 : Char → Mat3 :=
  fun c => if c = 'b' then ⟨1, 1, fun _ _ _ => 3⟩ else ⟨1, 1, fun _ _ _ => 0⟩
def frameC3 : Mat3 := ⟨1, 1, fun _ _ _ => 255⟩
def glyphC3 : Mat3 := ⟨1, 1, fun _ _ _ => 255⟩
def bufC3 : Buf := ⟨1, 1, 256, fun _ _ _ => 255⟩
def frameC6 : Mat3 := ⟨3, 5, fun _ _ _ => 200⟩
def glyphC6 : Mat3 := ⟨2, 2, fun _ _ _ => 9⟩
def frameC7a : Mat3 := ⟨1, 1, fun _ _ _ => 85⟩
def frameC7b : Mat3 := ⟨1, 1, fun _ _ c => if c = 1 then 170 else 0⟩
def glyphC7 : Mat3 := ⟨1, 1, fun _ _ _ => 7⟩
def fontC10 : Char → Mat3 := fun _ => ⟨1, 1, fun _ _ _ => 0⟩

/-! ### Arithmetic helper lemmas -/

lemma inv8_lt (v : Nat) : inv8 v < 256 :=
  Nat.mod_lt _ (by norm_num)

lemma bIdx_of_lt {d y : Nat} (h : y < d) : bIdx d y = y := by
  unfold bIdx
  split
  · omega
  · rfl

lemma le_strideLen_mul {n k : Nat} (hk : 0 < k) : n ≤ strideLen n k * k := by
  unfold strideLen
  cases n with
  | zero => simp
  | succ m =>
    rw [show m + 1 + k - 1 = m + k by omega, Nat.add_div_right m hk]
    have h2 := Nat.div_add_mod m k
    have h3 := Nat.mod_lt m hk
    rw [Nat.add_mul, one_mul, Nat.mul_comm (m / k) k]
    omega

lemma sample_lt {n k i : Nat} (hk : 0 < k) (hi : i < strideLen n k) : i * k < n := by
  unfold strideLen at hi
  cases n with
  | zero =>
    rw [Nat.div_eq_of_lt (by omega)] at hi
    omega
  | succ m =>
    rw [show m + 1 + k - 1 = m + k by omega, Nat.add_div_right m hk] at hi
    have h2 : i * k ≤ m / k * k := Nat.mul_le_mul_right k (by omega)
    have h3 : m / k * k ≤ m := Nat.div_mul_le_self m k
    omega

lemma glyphIndex_lt {n lum : Nat} (hn : 0 < n) (hlum : lum ≤ 2040) : glyphIndex lum n < n := by
  unfold glyphIndex
  rw [Nat.shiftRight_eq_div_pow, show (2 : Nat) ^ 11 = 2048 by norm_num,
    Nat.div_lt_iff_lt_mul (by norm_num), Nat.mul_comm n 2048]
  exact Nat.mul_lt_mul_of_pos_right (by omega) hn

lemma glyphIndex_mono {l1 l2 : Nat} (n : Nat) (h : l1 ≤ l2) :
    glyphIndex l1 n ≤ glyphIndex l2 n := by
  unfold glyphIndex
  rw [Nat.shiftRight_eq_div_pow, Nat.shiftRight_eq_div_pow]
  exact Nat.div_le_div_right (Nat.mul_le_mul_right n h)

lemma cellIndex_lt (frame : Mat3) (fh fw bg : Nat) (mono : Option (Fin 3 → Nat))
    (n len : Nat) (hfh : 0 < fh) (hfw : 0 < fw)
    (h8 : ∀ y < frame.h, ∀ x < frame.w, ∀ c, frame.pix y x c < 256)
    (hn : n ≤ len) (hlen : 0 < len) :
    ∀ i < strideLen frame.h fh, ∀ j < strideLen frame.w fw,
      cellIndex frame fh fw bg mono n i j < len := by
  intro i hi j hj
  have hrow : i * fh < frame.h := sample_lt hfh hi
  have hcol : j * fw < frame.w := sample_lt hfw hj
  have hsamp : ∀ c : Fin 3, sampled frame fh fw i j c < 256 := by
    intro c
    exact h8 _ hrow _ hcol c
  have hsrc : ∀ c : Fin 3,
      (if mono.isSome then sampled frame fh fw else frameSmallColor frame fh fw bg) i j c
        < 256 := by
    intro c
    split
    · exact hsamp c
    · unfold frameSmallColor
      split
      · exact inv8_lt _
      · exact hsamp c
  have hlum : luminance
      ((if mono.isSome then sampled frame fh fw else frameSmallColor frame fh fw bg) i j 0)
      ((if mono.isSome then sampled frame fh fw else frameSmallColor frame fh fw bg) i j 1)
      ((if mono.isSome then sampled frame fh fw else frameSmallColor frame fh fw bg) i j 2)
        ≤ 2040 := by
    have h0 := hsrc 0
    have h1 := hsrc 1
    have h2 := hsrc 2
    unfold luminance
    omega
  unfold cellIndex
  rcases Nat.eq_zero_or_pos n with hn0 | hnpos
  · subst hn0
    simpa [glyphIndex] using hlen
  · exact lt_of_lt_of_le (glyphIndex_lt hnpos hlum) hn

/-! ### Duplicate-collapse and minimum-size lemmas -/

lemma mem_dedupFirstAux {x : Char} :
    ∀ (l seen : List Char), x ∈ dedupFirstAux seen l ↔ x ∈ l ∧ x ∉ seen := by
  intro l
  induction l with
  | nil =>
    intro seen
    simp [dedupFirstAux]
  | cons c cs ih =>
    intro seen
    unfold dedupFirstAux
    by_cases hc : c ∈ seen
    · rw [if_pos hc, ih seen, List.mem_cons]
      constructor
      · rintro ⟨h1, h2⟩
        exact ⟨Or.inr h1, h2⟩
      · rintro ⟨h1 | h1, h2⟩
        · exact absurd (h1 ▸ hc) h2
        · exact ⟨h1, h2⟩
    · rw [if_neg hc, List.mem_cons, ih (c :: seen), List.mem_cons, List.mem_cons]
      constructor
      · rintro (h1 | ⟨h1, h2⟩)
        · exact ⟨Or.inl h1, h1 ▸ hc⟩
        · exact ⟨Or.inr h1, fun h3 => h2 (Or.inr h3)⟩
      · rintro ⟨h1 | h1, h2⟩
        · exact Or.inl h1
        · by_cases hxc : x = c
          · exact Or.inl hxc
          · refine Or.inr ⟨h1, fun h3 => ?_⟩
            rcases h3 with h4 | h4
            · exact hxc h4
            · exact h2 h4

lemma mem_dedupFirst {x : Char} {l : List Char} : x ∈ dedupFirst l ↔ x ∈ l := by
  unfold dedupFirst
  rw [mem_dedupFirstAux]
  simp

lemma nodup_dedupFirstAux : ∀ (l seen : List Char), (dedupFirstAux seen l).Nodup := by
  intro l
  induction l with
  | nil =>
    intro seen
    simp [dedupFirstAux]
  | cons c cs ih =>
    intro seen
    unfold dedupFirstAux
    by_cases hc : c ∈ seen
    · rw [if_pos hc]
      exact ih seen
    · rw [if_neg hc]
      refine List.nodup_cons.mpr ⟨fun h => ?_, ih (c :: seen)⟩
      exact ((mem_dedupFirstAux cs (c :: seen)).mp h).2 (List.mem_cons_self c seen)

lemma nodup_dedupFirst (l : List Char) : (dedupFirst l).Nodup :=
  nodup_dedupFirstAux l []

lemma toFinset_dedupFirst (l : List Char) : (dedupFirst l).toFinset = l.toFinset := by
  ext x
  simp [List.mem_toFinset, mem_dedupFirst]

lemma length_dedupFirst (l : List Char) : (dedupFirst l).length = l.toFinset.card := by
  rw [← toFinset_dedupFirst, List.toFinset_card_of_nodup (nodup_dedupFirst l)]

lemma toFinset_card_lt_of_not_nodup {l : List Char} (h : ¬ l.Nodup) :
    l.toFinset.card < l.length := by
  rw [List.card_toFinset]
  have hsub := List.dedup_sublist l
  have hle := hsub.length_le
  rcases lt_or_eq_of_le hle with hlt | heq
  · exact hlt
  · exact absurd (hsub.eq_of_length heq ▸ List.nodup_dedup l) h

lemma foldl_min_le_init : ∀ (l : List Nat) (a : Nat), l.foldl min a ≤ a := by
  intro l
  induction l with
  | nil => intro a; exact le_refl a
  | cons b t ih =>
    intro a
    exact le_trans (ih (min a b)) (min_le_left a b)

lemma foldl_min_le_mem : ∀ (l : List Nat) (a x : Nat), x ∈ l → l.foldl min a ≤ x := by
  intro l
  induction l with
  | nil =>
    intro a x hx
    exact absurd hx (List.not_mem_nil x)
  | cons b t ih =>
    intro a x hx
    rcases List.mem_cons.mp hx with h1 | h1
    · rw [List.foldl_cons, h1]
      exact le_trans (foldl_min_le_init t (min a b)) (min_le_right a b)
    · rw [List.foldl_cons]
      exact ih (min a b) x h1

lemma minHeight_le (chars : List Char) (font : Char → Mat3) (c : Char)
    (hc : c ∈ dedupFirst chars) : minHeight chars font ≤ (font c).h := by
  unfold minHeight
  have hmem : (font c).h ∈ (dedupFirst chars).map (fun c => (font c).h) :=
    List.mem_map_of_mem _ hc
  rcases hl : (dedupFirst chars).map (fun c => (font c).h) with _ | ⟨a, l⟩
  · rw [hl] at hmem
    exact absurd hmem (List.not_mem_nil _)
  · rw [hl] at hmem
    rcases List.mem_cons.mp hmem with h1 | h1
    · exact h1 ▸ foldl_min_le_init l a
    · exact foldl_min_le_mem l a _ h1

lemma minWidth_le (chars : List Char) (font : Char → Mat3) (c : Char)
    (hc : c ∈ dedupFirst chars) : minWidth chars font ≤ (font c).w := by
  unfold minWidth
  have hmem : (font c).w ∈ (dedupFirst chars).map (fun c => (font c).w) :=
    List.mem_map_of_mem _ hc
  rcases hl : (dedupFirst chars).map (fun c => (font c).w) with _ | ⟨a, l⟩
  · rw [hl] at hmem
    exact absurd hmem (List.not_mem_nil _)
  · rw [hl] at hmem
    rcases List.mem_cons.mp hmem with h1 | h1
    · exact h1 ▸ foldl_min_le_init l a
    · exact foldl_min_le_mem l a _ h1

lemma renderGlyph_dims (background : Nat) (font : Char → Mat3) (mh mw : Nat) (c : Char)
    (hh : mh ≤ (font c).h) (hw : mw ≤ (font c).w) :
    (renderGlyph background font mh mw c).h = mh ∧ (renderGlyph background font mh mw c).w = mw := by
  unfold renderGlyph
  split
  · exact ⟨min_eq_right hh, min_eq_right hw⟩
  · exact ⟨min_eq_right hh, min_eq_right hw⟩

lemma map_const_eq_replicate {α β : Type} {f : α → β} {v : β} :
    ∀ (l : List α), (∀ x ∈ l, f x = v) → l.map f = List.replicate l.length v := by
  intro l
  induction l with
  | nil => intro _; rfl
  | cons a t ih =>
    intro h
    rw [List.map_cons, List.length_cons, List.replicate_succ,
      h a (List.mem_cons_self a t), ih fun x hx => h x (List.mem_cons_of_mem a hx)]

lemma get_font_bitmaps_length (reverse : Bool) (background : Nat) (chars : List Char)
    (font : Char → Mat3) :
    (get_font_bitmaps reverse background chars font).length = chars.toFinset.card := by
  unfold get_font_bitmaps
  rcases reverse with _ | _ <;>
    simp [List.length_insertionSort, length_dedupFirst]


lemma bcast_self (a : Nat) : bcast a a = some a := by
  unfold bcast
  rw [if_pos rfl]

lemma draw_ascii_none_spec (frame : Mat3) (chars : List Char) (bg : Nat) (clip : Bool)
    (mono : Option (Fin 3 → Nat)) (fb0 : Mat3) (rest : List Mat3)
    (hstep : ¬ (fb0.h = 0 ∨ fb0.w = 0))
    (hshape : ∀ g ∈ fb0 :: rest, g.h = fb0.h ∧ g.w = fb0.w)
    (hidx : ∀ i < strideLen frame.h fb0.h, ∀ j < strideLen frame.w fb0.w,
      cellIndex frame fb0.h fb0.w bg mono chars.length i j < rest.length + 1) :
    ∃ out, draw_ascii frame chars bg clip mono (fb0 :: rest) none = Except.ok out ∧
      out.h = (if clip then frame.h else strideLen frame.h fb0.h * fb0.h) ∧
      out.w = (if clip then frame.w else strideLen frame.w fb0.w * fb0.w) ∧
      ∀ y < out.h, ∀ x < out.w, ∀ c : Fin 3,
        out.pix y x c = blendPix
          (asciiF (fb0 :: rest) fb0 (cellIndex frame fb0.h fb0.w bg mono chars.length)
            fb0.h fb0.w y x c)
          (tintF frame fb0.h fb0.w bg mono
            (if chars.length < 32 then 2 ^ 16 else 2 ^ 32) y x c)
          (if chars.length < 32 then 2 ^ 16 else 2 ^ 32) bg := by
  have hfh : 0 < fb0.h := by
    rcases Nat.eq_zero_or_pos fb0.h with h | h
    · exact absurd (Or.inl h) hstep
    · exact h
  have hfw : 0 < fb0.w := by
    rcases Nat.eq_zero_or_pos fb0.w with h | h
    · exact absurd (Or.inr h) hstep
    · exact h
  have hmh : min (strideLen frame.h fb0.h * fb0.h) frame.h = frame.h :=
    min_eq_right (le_strideLen_mul hfh)
  have hmw : min (strideLen frame.w fb0.w * fb0.w) frame.w = frame.w :=
    min_eq_right (le_strideLen_mul hfw)
  have c1 : (fb0.h = 0 ∨ fb0.w = 0) = False := eq_false hstep
  have c2 : (∀ g ∈ fb0 :: rest, g.h = fb0.h ∧ g.w = fb0.w) = True := eq_true hshape
  have c3 : (∀ i < strideLen frame.h fb0.h, ∀ j < strideLen frame.w fb0.w,
      cellIndex frame fb0.h fb0.w bg mono chars.length i j < rest.length + 1) = True :=
    eq_true hidx
  cases clip with
  | false =>
    simp only [draw_ascii, c1, c2, c3, if_false, if_true, Bool.false_eq_true, min_self,
      bcast_self, eq_self_iff_true, and_self]
    refine ⟨_, rfl, rfl, rfl, ?_⟩
    intro y hy x hx c
    dsimp only at hy hx ⊢
    rw [bIdx_of_lt hy, bIdx_of_lt hx]
  | true =>
    simp only [draw_ascii, c1, c2, c3, if_false, if_true, min_self,
      bcast_self, eq_self_iff_true, and_self]
    refine ⟨_, rfl, hmh, hmw, ?_⟩
    intro y hy x hx c
    dsimp only at hy hx ⊢
    rw [bIdx_of_lt hy, bIdx_of_lt hx]

lemma draw_ascii_small_buffer (frame : Mat3) (chars : List Char) (bg : Nat)
    (mono : Option (Fin 3 → Nat)) (fb0 : Mat3) (rest : List Mat3) (b : Buf)
    (hb1 : 1 ≤ b.h) (hb2 : b.h < frame.h) :
    ∃ msg, draw_ascii frame chars bg true mono (fb0 :: rest) (some b) = Except.error msg := by
  by_cases hstep : fb0.h = 0 ∨ fb0.w = 0
  · refine ⟨"slice step cannot be zero", ?_⟩
    simp only [draw_ascii, eq_true hstep, if_true]
  · have hfh : 0 < fb0.h := by
      rcases Nat.eq_zero_or_pos fb0.h with h | h
      · exact absurd (Or.inl h) hstep
      · exact h
    by_cases hshape : ∀ g ∈ fb0 :: rest, g.h = fb0.h ∧ g.w = fb0.w
    · by_cases hidx : ∀ i < strideLen frame.h fb0.h, ∀ j < strideLen frame.w fb0.w,
        cellIndex frame fb0.h fb0.w bg mono chars.length i j < rest.length + 1
      · have e1 : min (strideLen frame.h fb0.h * fb0.h) frame.h = frame.h :=
          min_eq_right (le_strideLen_mul hfh)
        have e2 : min b.h (strideLen frame.h fb0.h * fb0.h) = b.h :=
          min_eq_left (le_trans (le_of_lt hb2) (le_strideLen_mul hfh))
        have e3 : min b.h frame.h = b.h := min_eq_left (le_of_lt hb2)
        rcases Nat.lt_or_ge 1 b.h with hbig | hone
        · refine ⟨"operands could not be broadcast together", ?_⟩
          simp only [draw_ascii, eq_false hstep, eq_true hshape, eq_true hidx, if_false, if_true,
            eq_self_iff_true, e1, e2, e3]
          have hb : bcast frame.h b.h = none := by
            unfold bcast
            rw [if_neg (by omega), if_neg (by omega), if_neg (by omega)]
          rw [hb]
        · have hbe : b.h = 1 := by omega
          have hb : bcast frame.h b.h = some frame.h := by
            unfold bcast
            rw [if_neg (by omega), if_neg (by omega), if_pos (by omega)]
          rcases hw : bcast (min (strideLen frame.w fb0.w * fb0.w) frame.w)
              (min (min b.w (strideLen frame.w fb0.w * fb0.w)) frame.w) with _ | rw2
          · refine ⟨"operands could not be broadcast together", ?_⟩
            simp only [draw_ascii, eq_false hstep, eq_true hshape, eq_true hidx, if_false, if_true,
              eq_self_iff_true, e1, e2, e3]
            rw [hb, hw]
          · refine ⟨"non-broadcastable output operand", ?_⟩
            simp only [draw_ascii, eq_false hstep, eq_true hshape, eq_true hidx, if_false, if_true,
              eq_self_iff_true, e1, e2, e3]
            rw [hb, hw]
            dsimp only
            rw [if_neg (fun hcon => absurd hcon.1 (by omega))]
      · refine ⟨"index out of bounds for axis 0", ?_⟩
        simp only [draw_ascii, eq_false hstep, eq_false hidx, eq_true hshape, if_false, if_true]
    · refine ⟨"could not pack inhomogeneous glyph shapes", ?_⟩
      simp only [draw_ascii, eq_false hstep, eq_false hshape, if_false, if_true]


lemma blendPix_zero (a M : Nat) : blendPix a 0 M 0 = 0 := by
  unfold blendPix
  simp

lemma blendPix_full (a M : Nat) (ha : a < 256) (hM : 65536 ≤ M) : blendPix a 255 M 0 = a := by
  unfold blendPix
  rw [if_neg (by norm_num)]
  have h1 : a * 255 < M := by
    calc a * 255 ≤ 255 * 255 := Nat.mul_le_mul_right 255 (by omega)
    _ < M := by omega
  rw [Nat.mod_eq_of_lt h1, Nat.mul_div_cancel a (by norm_num), Nat.mod_eq_of_lt ha]

lemma tintF_monoGreen (frame : Mat3) (fh fw M y x : Nat) (hM : 65536 ≤ M) :
    tintF frame fh fw 0 (some monoGreen) M y x 0 = 0 ∧
    tintF frame fh fw 0 (some monoGreen) M y x 1 = 255 ∧
    tintF frame fh fw 0 (some monoGreen) M y x 2 = 0 := by
  refine ⟨?_, ?_, ?_⟩
  · simp [tintF, monoGreen]
  · simp only [tintF, monoGreen, if_true, one_mul]
    rw [if_neg (show (0 : Nat) ≠ 255 by norm_num)]
    exact Nat.mod_eq_of_lt (by omega)
  · simp [tintF, monoGreen]

lemma cellIndex_monoGreen_congr (frame1 frame2 : Mat3) (fh fw n i j : Nat)
    (hl : luminance (frame1.pix (i * fh) (j * fw) 0) (frame1.pix (i * fh) (j * fw) 1)
        (frame1.pix (i * fh) (j * fw) 2)
      = luminance (frame2.pix (i * fh) (j * fw) 0) (frame2.pix (i * fh) (j * fw) 1)
        (frame2.pix (i * fh) (j * fw) 2)) :
    cellIndex frame1 fh fw 0 (some monoGreen) n i j
      = cellIndex frame2 fh fw 0 (some monoGreen) n i j := by
  unfold cellIndex sampled
  simp only [Option.isSome_some, if_true]
  rw [hl]

lemma asciiF_pix_lt (fb0 : Mat3) (rest : List Mat3) (idx : Nat → Nat → Nat) (fh fw y x : Nat)
    (c : Fin 3) (hfh : 0 < fh) (hfw : 0 < fw)
    (hU : ∀ g ∈ fb0 :: rest, g.h = fh ∧ g.w = fw)
    (hg8 : ∀ g ∈ fb0 :: rest, ∀ yy < g.h, ∀ xx < g.w, ∀ cc : Fin 3, g.pix yy xx cc < 256)
    (hidx : idx (y / fh) (x / fw) < rest.length + 1) :
    asciiF (fb0 :: rest) fb0 idx fh fw y x c < 256 := by
  unfold asciiF
  have hlen : idx (y / fh) (x / fw) < (fb0 :: rest).length := by simpa using hidx
  rw [List.getD_eq_getElem _ _ hlen]
  have hmem : (fb0 :: rest)[idx (y / fh) (x / fw)] ∈ fb0 :: rest := List.getElem_mem hlen
  have hd := hU _ hmem
  refine hg8 _ hmem _ ?_ _ ?_ c
  · rw [hd.1]
    exact Nat.mod_lt _ hfh
  · rw [hd.2]
    exact Nat.mod_lt _ hfw

/-- C7: with `monochrome_color = (0, 255, 0)` and a black background the
compositor output carries no information about the input colors beyond the
per-cell luminosity: two frames of the same size whose sampled cells have
equal luminosity convert to identical rasters, and every output pixel is
exactly the chosen glyph mask value in the green channel and 0 in the red
and blue channels. -/
theorem C7_monochrome_independent
    (frame1 frame2 : Mat3) (chars : List Char) (clip : Bool) (fb0 : Mat3) (rest : List Mat3)
    (hh : frame1.h = frame2.h) (hw : frame1.w = frame2.w)
    (h18 : ∀ y < frame1.h, ∀ x < frame1.w, ∀ c : Fin 3, frame1.pix y x c < 256)
    (h28 : ∀ y < frame2.h, ∀ x < frame2.w, ∀ c : Fin 3, frame2.pix y x c < 256)
    (hU : ∀ g ∈ fb0 :: rest, g.h = fb0.h ∧ g.w = fb0.w)
    (hg8 : ∀ g ∈ fb0 :: rest, ∀ y < g.h, ∀ x < g.w, ∀ c : Fin 3, g.pix y x c < 256)
    (hfh : 0 < fb0.h) (hfw : 0 < fb0.w)
    (hchars : chars.length ≤ rest.length + 1)
    (hlum : ∀ i < strideLen frame1.h fb0.h, ∀ j < strideLen frame1.w fb0.w,
      luminance (frame1.pix (i * fb0.h) (j * fb0.w) 0) (frame1.pix (i * fb0.h) (j * fb0.w) 1)
          (frame1.pix (i * fb0.h) (j * fb0.w) 2)
        = luminance (frame2.pix (i * fb0.h) (j * fb0.w) 0) (frame2.pix (i * fb0.h) (j * fb0.w) 1)
          (frame2.pix (i * fb0.h) (j * fb0.w) 2)) :
    ∃ o1 o2,
      draw_ascii frame1 chars 0 clip (some monoGreen) (fb0 :: rest) none = Except.ok o1 ∧
      draw_ascii frame2 chars 0 clip (some monoGreen) (fb0 :: rest) none = Except.ok o2 ∧
      o1.h = o2.h ∧ o1.w = o2.w ∧
      (∀ y < o1.h, ∀ x < o1.w, ∀ c : Fin 3, o1.pix y x c = o2.pix y x c) ∧
      (∀ y < o1.h, ∀ x < o1.w,
        o1.pix y x 0 = 0 ∧ o1.pix y x 2 = 0 ∧
        o1.pix y x 1 = ((fb0 :: rest).getD
          (cellIndex frame1 fb0.h fb0.w 0 (some monoGreen) chars.length (y / fb0.h) (x / fb0.w))
          fb0).pix (y % fb0.h) (x % fb0.w) 1) := by
  have hstep : ¬ (fb0.h = 0 ∨ fb0.w = 0) := by
    rintro (h | h) <;> omega
  have hM : 65536 ≤ (if chars.length < 32 then 2 ^ 16 else 2 ^ 32) := by
    split <;> norm_num
  have hidx1 := cellIndex_lt frame1 fb0.h fb0.w 0 (some monoGreen) chars.length
    (rest.length + 1) hfh hfw h18 hchars (Nat.succ_pos _)
  have hidx2 := cellIndex_lt frame2 fb0.h fb0.w 0 (some monoGreen) chars.length
    (rest.length + 1) hfh hfw h28 hchars (Nat.succ_pos _)
  obtain ⟨o1, e1, d1h, d1w, p1⟩ :=
    draw_ascii_none_spec frame1 chars 0 clip (some monoGreen) fb0 rest hstep hU hidx1
  obtain ⟨o2, e2, d2h, d2w, p2⟩ :=
    draw_ascii_none_spec frame2 chars 0 clip (some monoGreen) fb0 rest hstep hU hidx2
  have hoh : o1.h = o2.h := by
    rw [d1h, d2h, hh]
  have how : o1.w = o2.w := by
    rw [d1w, d2w, hw]
  have hyb : ∀ y < o1.h, y < strideLen frame1.h fb0.h * fb0.h := by
    intro y hy
    rw [d1h] at hy
    have hle := le_strideLen_mul (n := frame1.h) hfh
    split at hy
    · omega
    · exact hy
  have hxb : ∀ x < o1.w, x < strideLen frame1.w fb0.w * fb0.w := by
    intro x hx
    rw [d1w] at hx
    have hle := le_strideLen_mul (n := frame1.w) hfw
    split at hx
    · omega
    · exact hx
  refine ⟨o1, o2, e1, e2, hoh, how, ?_, ?_⟩
  · intro y hy x hx c
    have hi : y / fb0.h < strideLen frame1.h fb0.h :=
      (Nat.div_lt_iff_lt_mul hfh).mpr (hyb y hy)
    have hj : x / fb0.w < strideLen frame1.w fb0.w :=
      (Nat.div_lt_iff_lt_mul hfw).mpr (hxb x hx)
    rw [p1 y hy x hx c, p2 y (hoh ▸ hy) x (how ▸ hx) c]
    have hidxe : cellIndex frame1 fb0.h fb0.w 0 (some monoGreen) chars.length (y / fb0.h) (x / fb0.w)
        = cellIndex frame2 fb0.h fb0.w 0 (some monoGreen) chars.length (y / fb0.h) (x / fb0.w) :=
      cellIndex_monoGreen_congr frame1 frame2 fb0.h fb0.w chars.length _ _ (hlum _ hi _ hj)
    have ht : tintF frame1 fb0.h fb0.w 0 (some monoGreen)
          (if chars.length < 32 then 2 ^ 16 else 2 ^ 32)
        = tintF frame2 fb0.h fb0.w 0 (some monoGreen)
          (if chars.length < 32 then 2 ^ 16 else 2 ^ 32) := rfl
    rw [ht]
    unfold asciiF
    rw [hidxe]
  · intro y hy x hx
    have hi : y / fb0.h < strideLen frame1.h fb0.h :=
      (Nat.div_lt_iff_lt_mul hfh).mpr (hyb y hy)
    have hj : x / fb0.w < strideLen frame1.w fb0.w :=
      (Nat.div_lt_iff_lt_mul hfw).mpr (hxb x hx)
    have hmask := asciiF_pix_lt fb0 rest
      (cellIndex frame1 fb0.h fb0.w 0 (some monoGreen) chars.length) fb0.h fb0.w y x 1
      hfh hfw hU hg8 (hidx1 _ hi _ hj)
    obtain ⟨t0, t1, t2⟩ := tintF_monoGreen frame1 fb0.h fb0.w
      (if chars.length < 32 then 2 ^ 16 else 2 ^ 32) y x hM
    refine ⟨?_, ?_, ?_⟩
    · rw [p1 y hy x hx 0, t0, blendPix_zero]
    · rw [p1 y hy x hx 2, t2, blendPix_zero]
    · rw [p1 y hy x hx 1, t1, blendPix_full _ _ hmask hM]
      unfold asciiF
      rfl

/-- C1 (amended): `draw_ascii` never replaces a caller-supplied buffer; it
allocates only when no buffer is passed.  A supplied buffer whose shape does
not match the required output — here one with at least one row but fewer
rows than the frame, with clipping on — makes the conversion fail with a
broadcast error instead of completing. -/
theorem C1_mismatched_buffer_fails (frame : Mat3) (chars : List Char) (background : Nat)
    (monochrome : Option (Fin 3 → Nat)) (fb0 : Mat3) (rest : List Mat3) (b : Buf)
    (hb1 : 1 ≤ b.h) (hb2 : b.h < frame.h) :
    ∃ msg, draw_ascii frame chars background true monochrome (fb0 :: rest) (some b)
      = Except.error msg :=
  draw_ascii_small_buffer frame chars background monochrome fb0 rest b hb1 hb2

/-- Witness for C1: a 1-row buffer supplied for a 2-row frame makes the
conversion fail. -/
theorem C1_mismatched_buffer_fails_witness :
    1 ≤ bufC1.h ∧ bufC1.h < frameC1.h ∧
    ∃ msg, draw_ascii frameC1 ['a'] 0 true none [glyphC1] (some bufC1) = Except.error msg :=
  ⟨by decide, by decide,
    C1_mismatched_buffer_fails frameC1 ['a'] 0 none glyphC1 [] bufC1 (by decide) (by decide)⟩

/-- Counterexample to C1 as stated: a caller-supplied buffer whose shape
does not match the required output shape does NOT lead to a silent
reallocation; the conversion fails. -/
theorem C1_counterexample :
    (draw_ascii frameC1 ['a'] 0 true none [glyphC1] (some bufC1)).isOk = false := rfl

/-- C2 (failing-input evaluation): with the reverse flag unset and two
glyphs of densities 0 and 9, `get_font_bitmaps` returns the atlas in
DESCENDING density order [9, 0] — `sorted(..., reverse=not reverse)`
inverts the order documented in its own docstring (dark to light, i.e.
ascending) and stated by the claim. -/
theorem C2_default_sort_descending :
    (get_font_bitmaps false 0 ['a', 'b'] fontC2).map Mat3.density = [9, 0] := by decide

/-- C3 (failing-input evaluation): on a fresh buffer the blend of a white
glyph pixel with a white tint is floor(255*255/255) = 255, but a second
call that reuses the uint8 buffer returned by the first call computes the
product modulo 256 and yields 0. -/
theorem C3_buffer_reuse_wraps :
    (draw_ascii frameC3 ['@'] 0 true none [glyphC3] none).map (fun o => o.pix 0 0 0)
      = Except.ok 255 ∧
    (draw_ascii frameC3 ['@'] 0 true none [glyphC3] (some bufC3)).map (fun o => o.pix 0 0 0)
      = Except.ok 0 :=
  ⟨rfl, rfl⟩

/-- C4: for an atlas of `n ≥ 1` glyphs and any luminosity up to 2040, the
scaled-and-shifted glyph index is strictly below `n`, so the atlas gather
stays in bounds. -/
theorem C4_glyph_index_in_range (n lum : Nat) (hn : 1 ≤ n) (hlum : lum ≤ 2040) :
    glyphIndex lum n < n :=
  glyphIndex_lt hn hlum

/-- Witness for C4 at the extreme luminosity 2040 with a 10-glyph atlas. -/
theorem C4_glyph_index_in_range_witness :
    1 ≤ 10 ∧ 2040 ≤ 2040 ∧ glyphIndex 2040 10 < 10 :=
  ⟨by decide, by decide, C4_glyph_index_in_range 10 2040 (by decide) (by decide)⟩

/-- C5: the luminosity-to-glyph-index map is monotone non-decreasing for a
fixed character count. -/
theorem C5_glyph_index_monotone (n lum1 lum2 : Nat) (h : lum1 < lum2) :
    glyphIndex lum1 n ≤ glyphIndex lum2 n :=
  glyphIndex_mono n (le_of_lt h)

/-- Witness for C5. -/
theorem C5_glyph_index_monotone_witness :
    600 < 700 ∧ glyphIndex 600 10 ≤ glyphIndex 700 10 :=
  ⟨by decide, C5_glyph_index_monotone 10 600 700 (by decide)⟩

/-- C6: with clipping on and no caller buffer, conversion succeeds and the
output raster has exactly the dimensions of the input frame, including
when those are not multiples of the glyph cell size; an empty atlas
passes the frame through with the same dimensions. -/
theorem C6_clip_preserves_dims (frame : Mat3) (chars : List Char) (background : Nat)
    (monochrome : Option (Fin 3 → Nat)) (atlas : List Mat3)
    (h8 : ∀ y < frame.h, ∀ x < frame.w, ∀ c : Fin 3, frame.pix y x c < 256)
    (hU : ∀ g ∈ atlas, ∀ g2 ∈ atlas, g.h = g2.h ∧ g.w = g2.w)
    (hpos : ∀ g ∈ atlas, 0 < g.h ∧ 0 < g.w)
    (hlen : atlas ≠ [] → chars.length ≤ atlas.length) :
    ∃ out, draw_ascii frame chars background true monochrome atlas none = Except.ok out ∧
      out.h = frame.h ∧ out.w = frame.w := by
  cases atlas with
  | nil => exact ⟨frame, rfl, rfl, rfl⟩
  | cons fb0 rest =>
    have hfh : 0 < fb0.h := (hpos fb0 (List.mem_cons_self _ _)).1
    have hfw : 0 < fb0.w := (hpos fb0 (List.mem_cons_self _ _)).2
    have hshape : ∀ g ∈ fb0 :: rest, g.h = fb0.h ∧ g.w = fb0.w := fun g hg =>
      hU g hg fb0 (List.mem_cons_self _ _)
    have hchars : chars.length ≤ rest.length + 1 := by
      have := hlen (List.cons_ne_nil fb0 rest)
      simpa using this
    have hidx := cellIndex_lt frame fb0.h fb0.w background monochrome chars.length
      (rest.length + 1) hfh hfw h8 hchars (Nat.succ_pos _)
    obtain ⟨out, heq, hh, hw, _⟩ := draw_ascii_none_spec frame chars background true monochrome
      fb0 rest (by rintro (h | h) <;> omega) hshape hidx
    refine ⟨out, heq, ?_, ?_⟩
    · simpa using hh
    · simpa using hw

/-- Witness for C6: a 3 by 5 frame with 2 by 2 glyph cells converts to an
output of exactly 3 by 5. -/
theorem C6_clip_preserves_dims_witness :
    ∃ out, draw_ascii frameC6 ['a'] 0 true none [glyphC6] none = Except.ok out ∧
      out.h = 3 ∧ out.w = 5 :=
  C6_clip_preserves_dims frameC6 ['a'] 0 none [glyphC6] (by decide) (by decide) (by decide)
    (fun _ => by decide)

/-- Witness for C7: a gray frame and a pure-green frame of equal per-cell
luminosity 680 convert to identical outputs under the green monochrome
override. -/
theorem C7_monochrome_independent_witness :
    ∃ o1 o2,
      draw_ascii frameC7a ['a'] 0 true (some monoGreen) [glyphC7] none = Except.ok o1 ∧
      draw_ascii frameC7b ['a'] 0 true (some monoGreen) [glyphC7] none = Except.ok o2 ∧
      o1.h = o2.h ∧ o1.w = o2.w ∧
      (∀ y < o1.h, ∀ x < o1.w, ∀ c : Fin 3, o1.pix y x c = o2.pix y x c) ∧
      (∀ y < o1.h, ∀ x < o1.w,
        o1.pix y x 0 = 0 ∧ o1.pix y x 2 = 0 ∧
        o1.pix y x 1 = (([glyphC7] : List Mat3).getD
          (cellIndex frameC7a glyphC7.h glyphC7.w 0 (some monoGreen) (['a'] : List Char).length (y / glyphC7.h)
            (x / glyphC7.w)) glyphC7).pix (y % glyphC7.h) (x % glyphC7.w) 1) :=
  C7_monochrome_independent frameC7a frameC7b ['a'] true glyphC7 [] rfl rfl
    (by decide) (by decide) (by decide) (by decide) (by decide) (by decide) (by decide) (by decide)

/-- C8: an empty glyph atlas makes `draw_ascii` return the original frame
unchanged, for every frame, configuration and buffer. -/
theorem C8_empty_atlas_passthrough (frame : Mat3) (chars : List Char) (background : Nat)
    (clip : Bool) (monochrome : Option (Fin 3 → Nat)) (buffer : Option Buf) :
    draw_ascii frame chars background clip monochrome [] buffer = Except.ok frame :=
  rfl

/-- C9: every glyph in the atlas returned by `get_font_bitmaps` has the
same dimensions, namely the minimum height and minimum width measured
across the whole character set. -/
theorem C9_uniform_glyph_dims (reverse : Bool) (background : Nat) (chars : List Char)
    (font : Char → Mat3) :
    (get_font_bitmaps reverse background chars font).map (fun g => (g.h, g.w))
      = List.replicate (get_font_bitmaps reverse background chars font).length
          (minHeight chars font, minWidth chars font) := by
  cases reverse with
  | false =>
    simp only [get_font_bitmaps, Bool.false_eq_true, if_false, List.map_map, List.length_map]
    refine map_const_eq_replicate _ ?_
    intro c hc
    have hmem : c ∈ dedupFirst chars := (List.mem_insertionSort _).mp hc
    have hd := renderGlyph_dims background font (minHeight chars font) (minWidth chars font) c
      (minHeight_le chars font c hmem) (minWidth_le chars font c hmem)
    simp [Function.comp, hd.1, hd.2]
  | true =>
    simp only [get_font_bitmaps, if_true, List.map_map, List.length_map]
    refine map_const_eq_replicate _ ?_
    intro c hc
    have hmem : c ∈ dedupFirst chars := (List.mem_insertionSort _).mp hc
    have hd := renderGlyph_dims background font (minHeight chars font) (minWidth chars font) c
      (minHeight_le chars font c hmem) (minWidth_le chars font c hmem)
    simp [Function.comp, hd.1, hd.2]

/-- C10: the atlas holds exactly one glyph per distinct character, so its
length is the number of distinct characters, which is strictly smaller
than the length of the character sequence that `draw_ascii` scales its
indices by whenever the sequence contains a duplicate. -/
theorem C10_duplicates_collapse (reverse : Bool) (background : Nat) (chars : List Char)
    (font : Char → Mat3) (hdup : ¬ chars.Nodup) :
    (get_font_bitmaps reverse background chars font).length = chars.toFinset.card ∧
    (get_font_bitmaps reverse background chars font).length < chars.length := by
  have hlen := get_font_bitmaps_length reverse background chars font
  refine ⟨hlen, ?_⟩
  rw [hlen]
  exact toFinset_card_lt_of_not_nodup hdup

/-- Witness for C10: the duplicated set abb has a 2-glyph atlas, shorter
than its 3-character sequence. -/
theorem C10_duplicates_collapse_witness :
    (get_font_bitmaps false 0 ['a', 'a', 'b'] fontC10).length = 2 ∧
    (get_font_bitmaps false 0 ['a', 'a', 'b'] fontC10).length < 3 := by
  have h := C10_duplicates_collapse false 0 ['a', 'a', 'b'] fontC10 (by decide)
  exact ⟨h.1.trans (by decide), h.2⟩
